import Mathlib

/-!
Verification development for the TraceGuard vault and detection engine.

The definitions below are a shallow embedding of the JavaScript sources:

* popup-enhanced.js — crypto wrappers (bufToB64, b64ToBuf, encryptJSON,
  decryptJSON), the manual-entry save handler (saveEntry), the detection
  index maintenance (updateDetectionHashes, cleanupDetectionHashes,
  removeEntry, removeProfileEntry), short-display masking
  (createShortDisplay) and the auth flow (authClick).
* dashboard.js content script — the detection engine (checkForKnownPII,
  variant hashing, message handling, notification cooldown, usage logs,
  the debounce wiring of input events, form-submit handling).

Platform primitives that the sources call (Web Crypto AES-GCM and SHA-256,
TextEncoder/TextDecoder, btoa/atob, setTimeout) are not repository code;
they are either embedded concretely following their documented behaviour
(base64, timers) or taken as parameters and abstract interfaces whose
contracts appear as explicit hypotheses (digest functions, AEAD, JSON
serialization).
-/

namespace TraceGuard

/-! ## Data model (spec section 3) -/

/-- ProfileRecord from popup-enhanced.js profileForm handler:
type, value (plaintext), shortDisplay, addedAt. -/
structure ProfileRecord where
  type : String
  value : String
  shortDisplay : String
  addedAt : Nat
  deriving DecidableEq

/-- DetectionHashRecord from updateDetectionHashes:
hash (hex digest of the value), type, shortDisplay. -/
structure DetectionHashRecord where
  hash : String
  type : String
  shortDisplay : String
  deriving DecidableEq

/-- UsageLogRecord from logPIIUsage / the manual-save log append. The
fieldContext object is summarized by the label actually stored. -/
structure UsageLogRecord where
  type : String
  value : String
  shortDisplay : String
  site : String
  url : String
  timestamp : Nat
  fieldLabel : String
  deriving DecidableEq

/-! ## Base64 (model of bufToB64 / b64ToBuf, which wrap btoa / atob)

Bytes are `Nat` values below 256. Encoding follows RFC 4648 with padding,
matching the behaviour of btoa on a binary string; decoding mirrors atob
and fails (`none`) on input that is not valid padded base64. -/

def b64Alphabet : List Char :=
  "ABCDEFGHIJKLMNOPQRSTUVWXYZabcdefghijklmnopqrstuvwxyz0123456789+/".data

/-- Character for a six-bit group. Only used with arguments below 64. -/
def sixToChar (n : Nat) : Char := b64Alphabet.getD n '?'

/-- Index of a base64 character in the alphabet, none for foreign characters. -/
def charToSix (c : Char) : Option Nat := b64Alphabet.findIdx? (fun x => x == c)

/-- Encode a byte list to base64 characters, three bytes at a time. -/
def bufToB64Chars : List Nat → List Char
  | [] => []
  | [b0] => [sixToChar (b0 / 4), sixToChar (b0 % 4 * 16), '=', '=']
  | [b0, b1] => [sixToChar (b0 / 4), sixToChar (b0 % 4 * 16 + b1 / 16),
      sixToChar (b1 % 16 * 4), '=']
  | b0 :: b1 :: b2 :: rest =>
      sixToChar (b0 / 4) :: sixToChar (b0 % 4 * 16 + b1 / 16) ::
      sixToChar (b1 % 16 * 4 + b2 / 64) :: sixToChar (b2 % 64) :: bufToB64Chars rest

/-- Model of bufToB64 from popup-enhanced.js. -/
def bufToB64 (bs : List Nat) : String := String.mk (bufToB64Chars bs)

/-- Decode base64 characters four at a time, honouring terminal padding. -/
def b64ToBufChars : List Char → Option (List Nat)
  | [] => some []
  | c0 :: c1 :: c2 :: c3 :: rest =>
      if c2 == '=' then
        if c3 == '=' && rest.isEmpty then
          match charToSix c0, charToSix c1 with
          | some s0, some s1 => some [s0 * 4 + s1 / 16]
          | _, _ => none
        else none
      else if c3 == '=' then
        if rest.isEmpty then
          match charToSix c0, charToSix c1, charToSix c2 with
          | some s0, some s1, some s2 =>
              some [s0 * 4 + s1 / 16, s1 % 16 * 16 + s2 / 4]
          | _, _, _ => none
        else none
      else
        match charToSix c0, charToSix c1, charToSix c2, charToSix c3,
            b64ToBufChars rest with
        | some s0, some s1, some s2, some s3, some tail =>
            some ((s0 * 4 + s1 / 16) :: (s1 % 16 * 16 + s2 / 4) ::
              (s2 % 4 * 64 + s3) :: tail)
        | _, _, _, _, _ => none
  | _ => none

/-- Model of b64ToBuf from popup-enhanced.js. -/
def b64ToBuf (s : String) : Option (List Nat) := b64ToBufChars s.data

theorem charToSix_sixToChar_fin : ∀ n : Fin 64, charToSix (sixToChar n.val) = some n.val := by
  decide

theorem charToSix_sixToChar (n : Nat) (h : n < 64) : charToSix (sixToChar n) = some n :=
  charToSix_sixToChar_fin ⟨n, h⟩

theorem sixToChar_ne_pad_fin : ∀ n : Fin 64, (sixToChar n.val == '=') = false := by
  decide

theorem sixToChar_ne_pad (n : Nat) (h : n < 64) : (sixToChar n == '=') = false :=
  sixToChar_ne_pad_fin ⟨n, h⟩

theorem b64ToBufChars_bufToB64Chars (bs : List Nat) (h : ∀ b ∈ bs, b < 256) :
    b64ToBufChars (bufToB64Chars bs) = some bs := by
  induction bs using bufToB64Chars.induct with
  | case1 =>
      simp [bufToB64Chars, b64ToBufChars]
  | case2 b0 =>
      have hb0 : b0 < 256 := h b0 (by simp)
      rw [bufToB64Chars, b64ToBufChars]
      rw [charToSix_sixToChar (b0 / 4) (by omega),
        charToSix_sixToChar (b0 % 4 * 16) (by omega)]
      simp only [beq_self_eq_true, if_pos, List.isEmpty_nil, Bool.and_true, if_true]
      simp
      omega
  | case3 b0 b1 =>
      have hb0 : b0 < 256 := h b0 (by simp)
      have hb1 : b1 < 256 := h b1 (by simp)
      rw [bufToB64Chars, b64ToBufChars]
      rw [charToSix_sixToChar (b0 / 4) (by omega),
        charToSix_sixToChar (b0 % 4 * 16 + b1 / 16) (by omega),
        charToSix_sixToChar (b1 % 16 * 4) (by omega)]
      rw [sixToChar_ne_pad (b1 % 16 * 4) (by omega)]
      simp only [Bool.false_eq_true, if_false, beq_self_eq_true, if_pos,
        List.isEmpty_nil, if_true]
      simp
      omega
  | case4 b0 b1 b2 rest ih =>
      have hb0 : b0 < 256 := h b0 (by simp)
      have hb1 : b1 < 256 := h b1 (by simp)
      have hb2 : b2 < 256 := h b2 (by simp)
      have hrest : ∀ b ∈ rest, b < 256 := by
        intro b hb
        exact h b (by simp [hb])
      rw [bufToB64Chars, b64ToBufChars]
      rw [sixToChar_ne_pad (b1 % 16 * 4 + b2 / 64) (by omega),
        sixToChar_ne_pad (b2 % 64) (by omega)]
      rw [charToSix_sixToChar (b0 / 4) (by omega),
        charToSix_sixToChar (b0 % 4 * 16 + b1 / 16) (by omega),
        charToSix_sixToChar (b1 % 16 * 4 + b2 / 64) (by omega),
        charToSix_sixToChar (b2 % 64) (by omega)]
      rw [ih hrest]
      simp only [Bool.false_eq_true, if_false]
      simp
      omega

theorem b64ToBuf_bufToB64 (bs : List Nat) (h : ∀ b ∈ bs, b < 256) :
    b64ToBuf (bufToB64 bs) = some bs :=
  b64ToBufChars_bufToB64Chars bs h

/-! ## Text codec

Modelled from the spec: the sources serialize strings to bytes with the
platform TextEncoder and read them back with TextDecoder (external
interface, not repository code). We model the byte serialization as a
fixed-width injective encoding: each character code point (below 1114112,
hence below 256 ^ 3) becomes three base-256 digits. The properties the
repository relies on — injectivity, byte-validity, and an exact decoding
inverse — are established below. -/

def textEncode (s : String) : List Nat :=
  s.data.flatMap (fun c => [c.toNat % 256, c.toNat / 256 % 256, c.toNat / 65536])

def textDecodeChars : List Nat → Option (List Char)
  | [] => some []
  | b0 :: b1 :: b2 :: rest =>
      match textDecodeChars rest with
      | some cs => some (Char.ofNat (b0 + b1 * 256 + b2 * 65536) :: cs)
      | none => none
  | _ => none

def textDecode (bs : List Nat) : Option String :=
  (textDecodeChars bs).map String.mk

theorem char_toNat_lt (c : Char) : c.toNat < 1114112 := by
  have := c.valid
  unfold Char.toNat
  rcases this with h | h <;> omega

theorem textEncode_lt (s : String) : ∀ b ∈ textEncode s, b < 256 := by
  intro b hb
  simp only [textEncode, List.mem_flatMap] at hb
  obtain ⟨c, _, hc⟩ := hb
  have := char_toNat_lt c
  simp only [List.mem_cons, List.not_mem_nil, or_false] at hc
  rcases hc with rfl | rfl | rfl <;> omega

theorem textDecode_textEncode (s : String) : textDecode (textEncode s) = some s := by
  suffices h : textDecodeChars (textEncode s) = some s.data by
    simp [textDecode, h]
  unfold textEncode
  induction s.data with
  | nil => simp [textDecodeChars]
  | cons c cs ih =>
      simp only [List.flatMap_cons, List.cons_append, List.nil_append]
      rw [textDecodeChars, ih]
      have hlt := char_toNat_lt c
      have : c.toNat % 256 + c.toNat / 256 % 256 * 256 + c.toNat / 65536 * 65536 =
          c.toNat := by omega
      rw [this, Char.ofNat_toNat]

/-! ## Authenticated encryption interface

Modelled from the spec: the Web Crypto AES-GCM primitive used by
encryptJSON and decryptJSON (external interface, not repository code).
Encryption maps a key, a 96-bit IV and plaintext bytes to ciphertext
bytes; decryption either recovers the plaintext or fails with an
authentication error, modelled as `none`. The authenticated-encryption
contract appears as explicit hypotheses in the theorems below. -/

structure AEAD (Key : Type) where
  enc : Key → List Nat → List Nat → List Nat
  dec : Key → List Nat → List Nat → Option (List Nat)

/-- The encrypted payload shape stored for an Entry:
base64 IV and base64 ciphertext, exactly as built by encryptJSON. -/
structure EncPayload where
  iv : String
  ct : String
  deriving DecidableEq

/-- Model of encryptJSON from popup-enhanced.js. JSON.stringify is the
`stringify` parameter (platform primitive); the fresh random IV is the
`iv` parameter (entropy is external input). -/
def encryptJSON {Key α : Type} (A : AEAD Key) (stringify : α → String)
    (obj : α) (key : Key) (iv : List Nat) : EncPayload :=
  { iv := bufToB64 iv, ct := bufToB64 (A.enc key iv (textEncode (stringify obj))) }

/-- Model of decryptJSON from popup-enhanced.js. JSON.parse is the `parse`
parameter; a thrown AuthenticationError is modelled as `none`. -/
def decryptJSON {Key α : Type} (A : AEAD Key) (parse : String → Option α)
    (payload : EncPayload) (key : Key) : Option α := do
  let ivBuf ← b64ToBuf payload.iv
  let ctBuf ← b64ToBuf payload.ct
  let plain ← A.dec key ivBuf ctBuf
  let s ← textDecode plain
  parse s

/-! ## JS string primitives

Modelled from the spec: the platform string operations the sources use —
trim, toLowerCase, slice, charAt and split — are external primitives.
They are modelled on the character list of the string, following their
documented behaviour, so that every definition in this file evaluates. -/

/-- Model of String.prototype.trim: strip leading and trailing whitespace. -/
def jsTrim (s : String) : String :=
  String.mk (((s.data.dropWhile Char.isWhitespace).reverse.dropWhile
    Char.isWhitespace).reverse)

/-- Model of String.prototype.toLowerCase on the characters. -/
def jsToLower (s : String) : String := String.mk (s.data.map Char.toLower)

/-- Model of String.prototype.split with a one-character separator. -/
def splitOnChar : List Char → Char → List (List Char)
  | [], _ => [[]]
  | c :: rest, sep =>
      let r := splitOnChar rest sep
      if c == sep then [] :: r
      else
        match r with
        | h :: t => (c :: h) :: t
        | [] => [[c]]

/-! ## Short-display masking and detection index (popup-enhanced.js) -/

/-- Model of createShortDisplay from popup-enhanced.js. The numeric branch
matches raw.slice(-4); the email branch splits on the first at sign. -/
def createShortDisplay (raw : String) (type : String) : String :=
  if type == "phone" || type == "ssn" || type == "credit" then
    "••••" ++ String.mk (raw.data.drop (raw.data.length - 4))
  else if type == "email" then
    match raw.data.findIdx? (fun c => c == '@') with
    | some i => if 0 < i then
        String.mk (raw.data.take 1) ++ "••••@" ++
          String.mk ((splitOnChar raw.data '@').getD 1 [])
      else String.mk (raw.data.take 2) ++ "••••"
    | none => String.mk (raw.data.take 2) ++ "••••"
  else
    String.intercalate " " (((splitOnChar raw.data ' ').take 2).map String.mk) ++ " …"

/-- Model of updateDetectionHashes from popup-enhanced.js: append the
record only when no record with the same hash is already present. -/
def updateDetectionHashes (arr : List DetectionHashRecord)
    (hash type shortDisplay : String) : List DetectionHashRecord :=
  if arr.any (fun d => d.hash == hash) then arr
  else arr ++ [{ hash := hash, type := type, shortDisplay := shortDisplay }]

/-- Model of cleanupDetectionHashes from popup-enhanced.js: keep exactly
the records whose hash is the digest of some profile value. The saved
Entries are not consulted. -/
def cleanupDetectionHashes (digest : String → String)
    (detectionHashes : List DetectionHashRecord)
    (profile : List ProfileRecord) : List DetectionHashRecord :=
  let validHashes := profile.map (fun p => digest p.value)
  detectionHashes.filter (fun dh => validHashes.contains dh.hash)

/-- The log-capping step: after a push, keep only the last 1000 records. -/
def capLogs (logs : List UsageLogRecord) : List UsageLogRecord :=
  if logs.length > 1000 then logs.drop (logs.length - 1000) else logs

/-! ## Vault manager: manual entry save and removal (popup-enhanced.js) -/

/-- The plaintext payload encrypted by the entry-form submit handler. -/
structure EntryPayload where
  hash : String
  type : String
  fullHint : String
  ts : Nat
  site : String
  originalValue : String
  deriving DecidableEq

/-- The metadata stored next to the encrypted payload. -/
structure EntryMeta where
  type : String
  short : String
  site : String
  ts : Nat
  deriving DecidableEq

/-- One element of the tg_entries list. -/
structure SavedEntry where
  payload : EncPayload
  meta : EntryMeta
  deriving DecidableEq

/-- The storage keys the popup mutates: tg_entries, tg_known_pii,
tg_detection_hashes, tg_usage_logs. -/
structure PopupStore where
  entries : List SavedEntry
  profile : List ProfileRecord
  detectionHashes : List DetectionHashRecord
  logs : List UsageLogRecord
  deriving DecidableEq

/-- Model of the entryForm submit handler (saveEntry) in popup-enhanced.js.
`digest` stands for sha256Hex, `masterKey` for the in-memory MASTER_KEY
(present directly or obtained through the soft inline unlock); the handler
aborts (`none`) when no key is available or the trimmed value is empty.
On success it appends the encrypted Entry, upserts the detection hash for
the digest of the raw value, and appends a capped Manual Save log. -/
def saveEntry {Key : Type} (digest : String → String) (A : AEAD Key)
    (stringify : EntryPayload → String) (masterKey : Option Key)
    (valueInput typeSel site url : String) (iv : List Nat) (now : Nat)
    (st : PopupStore) : Option PopupStore :=
  match masterKey with
  | none => none
  | some key =>
      let raw := jsTrim valueInput
      if raw == "" then none
      else
        let h := digest raw
        let short := createShortDisplay raw typeSel
        let payloadObj : EntryPayload :=
          { hash := h, type := typeSel, fullHint := short, ts := now,
            site := site, originalValue := raw }
        let enc := encryptJSON A stringify payloadObj key iv
        let log : UsageLogRecord :=
          { type := typeSel, value := h, shortDisplay := short, site := site,
            url := url, timestamp := now, fieldLabel := "Manual Save" }
        some { st with
          entries := st.entries ++
            [{ payload := enc,
               meta := { type := typeSel, short := short, site := site, ts := now } }],
          detectionHashes := updateDetectionHashes st.detectionHashes h typeSel short,
          logs := capLogs (st.logs ++ [log]) }

/-- Model of removeEntry from popup-enhanced.js: splice the entry out and
then run cleanupDetectionHashes, which cross-checks profile records only. -/
def removeEntry (digest : String → String) (st : PopupStore) (idx : Nat) : PopupStore :=
  { st with
    entries := st.entries.eraseIdx idx,
    detectionHashes := cleanupDetectionHashes digest st.detectionHashes st.profile }

/-- Model of the detection-index effect of removeProfileEntry in
popup-enhanced.js: drop every record carrying the removed value hash. -/
def removeProfileHash (digest : String → String)
    (arr : List DetectionHashRecord) (removedValue : String) : List DetectionHashRecord :=
  arr.filter (fun d => d.hash != digest removedValue)

/-! ## Reachable detection-index states

The detection hash index is mutated by exactly three operations in the
sources: the upsert (updateDetectionHashes), the per-profile removal
(removeProfileEntry filter), and the cleanup filter. Reachable states are
those obtained from the empty index by any sequence of these. -/

inductive IndexOp where
  | upsert (hash type shortDisplay : String)
  | removeHash (hash : String)
  | cleanup (validHashes : List String)

def applyIndexOp (arr : List DetectionHashRecord) : IndexOp → List DetectionHashRecord
  | .upsert h t s => updateDetectionHashes arr h t s
  | .removeHash h => arr.filter (fun d => d.hash != h)
  | .cleanup valid => arr.filter (fun d => valid.contains d.hash)

def runIndexOps (ops : List IndexOp) : List DetectionHashRecord :=
  ops.foldl applyIndexOp []

/-- Number of records carrying a given hash. -/
def hashCount (arr : List DetectionHashRecord) (h : String) : Nat :=
  (arr.filter (fun d => d.hash == h)).length

/-- Every hash occurs at most once: the hash column has no duplicates. -/
def hashNodup (arr : List DetectionHashRecord) : Prop :=
  (arr.map (fun d => d.hash)).Nodup

/-! ## Auth flow (popup-enhanced.js authBtn click handler) -/

/-- The storage keys the auth flow touches: masterHash, locked,
tg_preserve_session and tg_session_key. -/
structure AuthStore where
  masterHash : Option String
  locked : Option Bool
  preserveSession : Option Bool
  sessionKey : Option String
  deriving DecidableEq

/-- Model of the authBtn click handler in popup-enhanced.js. `digest`
stands for sha256Hex, `derive` for deriveKey, `exportB64` for the raw key
export followed by bufToB64. Create mode runs when no masterHash exists,
unlock mode otherwise; in both modes the raw session key is written to
storage whenever the preserve-session setting is not the stored value
false. Returns the updated store and the derived key on success. -/
def authClick {Key : Type} (digest : String → String) (derive : String → Key)
    (exportB64 : Key → String) (pwInput confirmInput : String)
    (st : AuthStore) : AuthStore × Option Key :=
  let pw := jsTrim pwInput
  let confirm := jsTrim confirmInput
  match st.masterHash with
  | none =>
      if pw == "" then (st, none)
      else if pw != confirm then (st, none)
      else if pw.length < 6 then (st, none)
      else
        let key := derive pw
        let st1 := if st.preserveSession != some false
          then { st with sessionKey := some (exportB64 key) } else st
        ({ st1 with masterHash := some (digest pw), locked := some false }, some key)
  | some mh =>
      if digest pw != mh then (st, none)
      else
        let key := derive pw
        let st1 := if st.preserveSession != some false
          then { st with sessionKey := some (exportB64 key) } else st
        ({ st1 with locked := some false }, some key)

/-! ## Detection engine (dashboard.js content script) -/

/-- The in-memory state of one content-script instance. -/
structure CSState where
  isUnlocked : Bool
  knownEntries : List ProfileRecord
  detectionHashes : List DetectionHashRecord
  deriving DecidableEq

/-- Model of value.replace of all non-digits by the empty string. -/
def stripNonDigits (s : String) : String := String.mk (s.data.filter Char.isDigit)

/-- The match object produced by a detection: for a plaintext match the
profile entry fields, for a hash match the record with its hash as value. -/
structure Found where
  type : String
  value : String
  shortDisplay : String
  deriving DecidableEq

/-- One profile entry test inside checkForKnownPII: exact equality, or for
phone / ssn / credit equality of digit strings subject to the per-type
minimum digit length. -/
def profileMatches (value : String) (entry : ProfileRecord) : Bool :=
  if entry.value == value then true
  else if entry.type == "phone" then
    let cleanInput := stripNonDigits value
    let cleanStored := stripNonDigits entry.value
    cleanInput == cleanStored && decide (10 ≤ cleanInput.length)
  else if entry.type == "ssn" then
    let cleanInput := stripNonDigits value
    let cleanStored := stripNonDigits entry.value
    cleanInput == cleanStored && decide (cleanInput.length = 9)
  else if entry.type == "credit" then
    let cleanInput := stripNonDigits value
    let cleanStored := stripNonDigits entry.value
    cleanInput == cleanStored && decide (13 ≤ cleanInput.length)
  else false

/-- The three normalized variants hashed in step 2 of checkForKnownPII:
raw value, digits only, lowercased. -/
def variantHashes (digest : String → String) (value : String) : List String :=
  [digest value, digest (stripNonDigits value), digest (jsToLower value)]

/-- Step 2 of checkForKnownPII: hash-based matching against the detection
index, guarded by the index being non-empty. -/
def hashDetect (digest : String → String) (st : CSState) (value : String) : Option Found :=
  if st.detectionHashes.isEmpty then none
  else
    match st.detectionHashes.find?
        (fun e => (variantHashes digest value).contains e.hash) with
    | some m => some { type := m.type, value := m.hash, shortDisplay := m.shortDisplay }
    | none => none

/-- Model of checkForKnownPII from dashboard.js: plaintext matching against
knownEntries first (only while unlocked and the cache is non-empty, first
match in list order wins), then hash-based matching. -/
def checkForKnownPII (digest : String → String) (st : CSState) (value : String) :
    Option Found :=
  if st.isUnlocked && !st.knownEntries.isEmpty then
    match st.knownEntries.filter (profileMatches value) with
    | m :: _ => some { type := m.type, value := m.value, shortDisplay := m.shortDisplay }
    | [] => hashDetect digest st value
  else hashDetect digest st value

/-- The broadcast messages handled by the content script. -/
inductive CSMessage where
  | statusChanged (unlocked : Bool)
  | detectionUpdated

/-- Model of the chrome.runtime.onMessage listener in dashboard.js.
statusChanged with unlocked sets the flag and reloads knownEntries from
storage; statusChanged with locked clears knownEntries; detectionUpdated
reloads the hash index from storage. -/
def onMessage (storedProfile : List ProfileRecord)
    (storedHashes : List DetectionHashRecord) (msg : CSMessage) (st : CSState) : CSState :=
  match msg with
  | .statusChanged u =>
      if u then { st with isUnlocked := true, knownEntries := storedProfile }
      else { st with isUnlocked := false, knownEntries := [] }
  | .detectionUpdated => { st with detectionHashes := storedHashes }

/-- Model of handlePaste from dashboard.js: after the timeout reads the
field value, run the detection check when the trimmed value has length at
least 3. `some r` records that checkForKnownPII ran with result r. -/
def handlePaste (digest : String → String) (st : CSState) (value : String) :
    Option (Option Found) :=
  let v := jsTrim value
  if 3 ≤ v.length then some (checkForKnownPII digest st v) else none

/-- Model of handleFormSubmit from dashboard.js: while locked nothing at
all runs; otherwise every trimmed field value of length at least 3 is
checked. The result lists the checks performed with their outcomes. -/
def handleFormSubmit (digest : String → String) (st : CSState)
    (inputs : List String) : List (String × Option Found) :=
  if !st.isUnlocked then []
  else ((inputs.map jsTrim).filter (fun v => decide (3 ≤ v.length))).map
    (fun v => (v, checkForKnownPII digest st v))

/-! ## Notification cooldown and usage logs (dashboard.js) -/

/-- Lookup in the lastNotificationTime object, modelled as an association
list from field key to timestamp. -/
def lookupTime (m : List (String × Nat)) (k : String) : Option Nat :=
  (m.find? (fun p => p.1 == k)).map (fun p => p.2)

/-- Property write lastNotificationTime of fieldKey := now. -/
def mapUpsert (m : List (String × Nat)) (k : String) (v : Nat) : List (String × Nat) :=
  if m.any (fun p => p.1 == k) then
    m.map (fun p => if p.1 == k then (k, v) else p)
  else m ++ [(k, v)]

/-- Model of showNotification from dashboard.js: the notification keyed by
type and site is suppressed when a previous (truthy) timestamp lies within
the 5000 ms cooldown; otherwise the timestamp is recorded and the
notification shown. Returns the updated map and whether it was shown. -/
def showNotification (last : List (String × Nat)) (type site : String) (now : Nat) :
    List (String × Nat) × Bool :=
  if (match lookupTime last (type ++ "_" ++ site) with
      | some t => t != 0 && decide (now - t < 5000)
      | none => false) then (last, false)
  else (mapUpsert last (type ++ "_" ++ site) now, true)

/-- The UsageLogRecord built by logPIIUsage for a match on a site. -/
def mkUsageLog (found : Found) (site url : String) (now : Nat)
    (fieldLabel : String) : UsageLogRecord :=
  { type := found.type, value := found.value, shortDisplay := found.shortDisplay,
    site := site, url := url, timestamp := now, fieldLabel := fieldLabel }

/-- Model of logPIIUsage from dashboard.js: push the record and keep only
the last 1000 logs. -/
def logPIIUsage (logs : List UsageLogRecord) (found : Found) (site url : String)
    (now : Nat) (fieldLabel : String) : List UsageLogRecord :=
  capLogs (logs ++ [mkUsageLog found site url now fieldLabel])

/-- The state touched when a detection match is processed. -/
structure DetectState where
  logs : List UsageLogRecord
  lastNotificationTime : List (String × Nat)
  deriving DecidableEq

/-- The match branch of checkForKnownPII: logPIIUsage followed by
showNotification, as run for every detection match. Returns the new state
and whether a notification was raised. -/
def processMatch (st : DetectState) (found : Found) (site url : String) (now : Nat)
    (fieldLabel : String) : DetectState × Bool :=
  ({ logs := logPIIUsage st.logs found site url now fieldLabel,
     lastNotificationTime :=
       (showNotification st.lastNotificationTime found.type site now).1 },
   (showNotification st.lastNotificationTime found.type site now).2)

/-! ## Input debouncing (dashboard.js)

Model of the browser timer queue used by debounce: each pending timer has
an identifier and a fire time. A timer that is never cleared fires, and
here every timer runs one checkForKnownPII call. -/

structure TimerState where
  nextId : Nat
  pending : List (Nat × Nat)
  deriving DecidableEq

def jsClearTimeout (ts : TimerState) (id? : Option Nat) : TimerState :=
  match id? with
  | none => ts
  | some id => { ts with pending := ts.pending.filter (fun p => p.1 != id) }

def jsSetTimeout (ts : TimerState) (fireAt : Nat) : TimerState × Nat :=
  ({ nextId := ts.nextId + 1, pending := ts.pending ++ [(ts.nextId, fireAt)] }, ts.nextId)

/-- The body of the closure returned by debounce in dashboard.js: clear
the timer stored in the closure-local variable, schedule a new one, and
remember its id in that variable. -/
def debounceInvoke (stored : Option Nat) (ts : TimerState) (now wait : Nat) :
    Option Nat × TimerState :=
  let ts1 := jsClearTimeout ts stored
  let r := jsSetTimeout ts1 (now + wait)
  (some r.2, r.1)

/-- Model of handleInputChange from dashboard.js: each input event
evaluates debounce(fn, 500)() afresh, so the closure-local timeout
variable starts out empty on every keystroke and no earlier timer is
cleared. -/
def handleInputChange (ts : TimerState) (now : Nat) : TimerState :=
  (debounceInvoke none ts now 500).2

/-- A whole sequence of input events on the same field. -/
def processInputEvents (ts : TimerState) (events : List Nat) : TimerState :=
  events.foldl handleInputChange ts

/-! ## Example instances used by witnesses and counterexamples -/

/-- A concrete stand-in for the sha256Hex parameter: deterministic and
injective on the inputs of the examples. -/
def exDigest : String → String := fun s => "#" ++ s

/-- A trivial AEAD instance: satisfies the round-trip hypotheses of the
round-trip theorem. -/
def idAEAD : AEAD Nat := { enc := fun _ _ pt => pt, dec := fun _ _ ct => some ct }

/-- An AEAD instance whose ciphertexts carry a key and IV tag, so that
decryption under a wrong key, a corrupted ciphertext or a foreign IV is
rejected: satisfies the fail-closed hypotheses. -/
def tagAEAD : AEAD Nat where
  enc := fun k iv pt => k % 256 :: iv.length % 256 :: pt
  dec := fun k iv ct =>
    match ct with
    | t :: l :: rest =>
        if t == k % 256 && l == iv.length % 256 then some rest else none
    | _ => none

/-- A trivial serializer for String payloads used by example instances. -/
def exStringify : EntryPayload → String := fun _ => ""

def emptyPopupStore : PopupStore :=
  { entries := [], profile := [], detectionHashes := [], logs := [] }

/-! ## Shared lemmas about the detection index -/

theorem updateDetectionHashes_any_self (arr : List DetectionHashRecord)
    (h t s : String) :
    (updateDetectionHashes arr h t s).any (fun d => d.hash == h) = true := by
  unfold updateDetectionHashes
  split
  case isTrue ha => exact ha
  case isFalse ha => simp

theorem hashCount_eq_zero_of_any_false (arr : List DetectionHashRecord) (h : String)
    (ha : arr.any (fun d => d.hash == h) = false) : hashCount arr h = 0 := by
  simp only [hashCount, List.length_eq_zero]
  refine List.filter_eq_nil_iff.2 ?_
  intro d hd
  simp only [List.any_eq_false] at ha
  simp [ha d hd]

theorem hashCount_pos_of_any_true (arr : List DetectionHashRecord) (h : String)
    (ha : arr.any (fun d => d.hash == h) = true) : 1 ≤ hashCount arr h := by
  simp only [List.any_eq_true] at ha
  obtain ⟨d, hd, hdh⟩ := ha
  have : d ∈ arr.filter (fun d => d.hash == h) := List.mem_filter.2 ⟨hd, hdh⟩
  have := List.length_pos_of_mem this
  simpa [hashCount] using this

theorem hashCount_le_one_of_nodup (arr : List DetectionHashRecord) (h : String)
    (hnd : hashNodup arr) : hashCount arr h ≤ 1 := by
  induction arr with
  | nil => simp [hashCount]
  | cons d ds ih =>
      have hnd2 : hashNodup ds := by
        simpa [hashNodup] using (List.nodup_cons.1 hnd).2
      have hni : d.hash ∉ ds.map (fun x => x.hash) := (List.nodup_cons.1 hnd).1
      by_cases hdh : d.hash == h
      · have hzero : hashCount ds h = 0 := by
          refine hashCount_eq_zero_of_any_false ds h ?_
          simp only [List.any_eq_false]
          intro x hx
          intro hxh
          refine hni ?_
          have hx1 : x.hash = h := by simpa using hxh
          have hd1 : d.hash = h := by simpa using hdh
          rw [hd1, ← hx1]
          exact List.mem_map.2 ⟨x, hx, rfl⟩
        have hstep : hashCount (d :: ds) h = hashCount ds h + 1 := by
          simp [hashCount, List.filter_cons, hdh]
        rw [hstep, hzero]
      · simp only [hashCount, List.filter_cons, hdh]
        simpa [hashCount] using ih hnd2

theorem hashNodup_updateDetectionHashes (arr : List DetectionHashRecord)
    (h t s : String) (hnd : hashNodup arr) :
    hashNodup (updateDetectionHashes arr h t s) := by
  unfold updateDetectionHashes
  split
  case isTrue ha => exact hnd
  case isFalse ha =>
      simp only [hashNodup, List.map_append, List.map_cons, List.map_nil]
      rw [List.nodup_append]
      refine ⟨hnd, by simp, ?_⟩
      intro x hx hmem
      simp only [List.mem_singleton] at hmem
      subst hmem
      obtain ⟨d, hd, hdh⟩ := List.mem_map.1 hx
      have ha2 : ∀ e ∈ arr, ¬ (e.hash == x) = true := by
        simpa [List.any_eq_true] using ha
      have hcontra := ha2 d hd
      rw [hdh] at hcontra
      simp at hcontra

theorem hashNodup_filter (arr : List DetectionHashRecord)
    (p : DetectionHashRecord → Bool) (hnd : hashNodup arr) :
    hashNodup (arr.filter p) := by
  have hs : List.Sublist ((arr.filter p).map (fun d => d.hash))
      (arr.map (fun d => d.hash)) := (List.filter_sublist arr).map _
  exact hnd.sublist hs

theorem hashNodup_runIndexOps (ops : List IndexOp) : hashNodup (runIndexOps ops) := by
  suffices h : ∀ arr, hashNodup arr → hashNodup (ops.foldl applyIndexOp arr) by
    exact h [] (by simp [hashNodup])
  induction ops with
  | nil => intro arr hnd; simpa using hnd
  | cons op ops ih =>
      intro arr hnd
      simp only [List.foldl_cons]
      refine ih (applyIndexOp arr op) ?_
      cases op with
      | upsert h t s => exact hashNodup_updateDetectionHashes arr h t s hnd
      | removeHash h => exact hashNodup_filter arr _ hnd
      | cleanup valid => exact hashNodup_filter arr _ hnd

/-- C4: the detection-index upsert is idempotent. On any reachable index
state (obtained from the empty index by the operations the sources
perform), upserting the same hash twice leaves exactly one record with
that hash, and the resulting state again carries each hash at most once. -/
theorem detection_upsert_idempotent (ops : List IndexOp) (h t1 s1 t2 s2 : String) :
    hashCount (updateDetectionHashes
      (updateDetectionHashes (runIndexOps ops) h t1 s1) h t2 s2) h = 1 ∧
    hashNodup (updateDetectionHashes
      (updateDetectionHashes (runIndexOps ops) h t1 s1) h t2 s2) := by
  have hnd : hashNodup (runIndexOps ops) := hashNodup_runIndexOps ops
  have hnd1 : hashNodup (updateDetectionHashes (runIndexOps ops) h t1 s1) :=
    hashNodup_updateDetectionHashes _ h t1 s1 hnd
  have hnd2 : hashNodup (updateDetectionHashes
      (updateDetectionHashes (runIndexOps ops) h t1 s1) h t2 s2) :=
    hashNodup_updateDetectionHashes _ h t2 s2 hnd1
  refine ⟨?_, hnd2⟩
  have hany : (updateDetectionHashes (runIndexOps ops) h t1 s1).any
      (fun d => d.hash == h) = true := updateDetectionHashes_any_self _ h t1 s1
  have hsecond : updateDetectionHashes
      (updateDetectionHashes (runIndexOps ops) h t1 s1) h t2 s2 =
      updateDetectionHashes (runIndexOps ops) h t1 s1 := by
    unfold updateDetectionHashes
    rw [if_pos]
    exact hany
  rw [hsecond]
  have hle : hashCount (updateDetectionHashes (runIndexOps ops) h t1 s1) h ≤ 1 :=
    hashCount_le_one_of_nodup _ h hnd1
  have hge : 1 ≤ hashCount (updateDetectionHashes (runIndexOps ops) h t1 s1) h :=
    hashCount_pos_of_any_true _ h hany
  omega

/-- C1: whenever the manual entry save succeeds, the resulting detection
hash index contains a record whose hash equals the digest of the saved raw
value (the trimmed input), so hash-based detection stays consistent with
encrypted storage. -/
theorem saveEntry_upserts_detection_hash {Key : Type} (digest : String → String)
    (A : AEAD Key) (stringify : EntryPayload → String) (masterKey : Option Key)
    (valueInput typeSel site url : String) (iv : List Nat) (now : Nat)
    (st st' : PopupStore)
    (hsave : saveEntry digest A stringify masterKey valueInput typeSel site url
      iv now st = some st') :
    st'.detectionHashes.any (fun d => d.hash == digest (jsTrim valueInput)) = true := by
  unfold saveEntry at hsave
  cases masterKey with
  | none => exact absurd hsave (by simp)
  | some key =>
      simp only at hsave
      split at hsave
      case isTrue => exact absurd hsave (by simp)
      case isFalse =>
          have hst : st' = { st with
              entries := _, detectionHashes := _, logs := _ } := (Option.some.inj hsave).symm
          rw [hst]
          exact updateDetectionHashes_any_self _ _ _ _

theorem saveEntry_upserts_detection_hash_witness :
    ((saveEntry exDigest idAEAD exStringify (some 0) "v12" "email" "site" "url"
      [] 5 emptyPopupStore).getD emptyPopupStore).detectionHashes.any
      (fun d => d.hash == exDigest (jsTrim "v12")) = true :=
  saveEntry_upserts_detection_hash exDigest idAEAD exStringify (some 0) "v12"
    "email" "site" "url" [] 5 emptyPopupStore _ (by decide)

/-! ## C2: the cleanup run after removeEntry

Concrete run: two manual entries are saved (raw values alpha and beta)
with an empty profile list, then the first entry is removed. The spec
requires that the detection record backing the remaining beta entry stay
in the index; the code removes it, because cleanupDetectionHashes keeps
only hashes derived from profile values. -/

def c2Store1 : PopupStore :=
  (saveEntry exDigest idAEAD exStringify (some 0) "alpha" "email" "s" "u"
    [] 0 emptyPopupStore).getD emptyPopupStore

def c2Store2 : PopupStore :=
  (saveEntry exDigest idAEAD exStringify (some 0) "beta" "email" "s" "u"
    [] 1 c2Store1).getD emptyPopupStore

/-- C2 (code bug, concrete failing run): after saving alpha and beta and
removing entry 0, one saved entry remains (the beta entry, recognizable by
its timestamp), its hash was in the index before the removal, and the
cleanup triggered by removeEntry deletes the whole index — including the
record whose hash is the digest of the remaining saved value. -/
theorem cleanup_drops_hash_of_remaining_entry :
    c2Store2.entries.length = 2 ∧
    c2Store2.profile = [] ∧
    c2Store2.detectionHashes.any (fun d => d.hash == exDigest "beta") = true ∧
    (removeEntry exDigest c2Store2 0).entries.length = 1 ∧
    ((removeEntry exDigest c2Store2 0).entries.map (fun e => e.meta.ts)) = [1] ∧
    (removeEntry exDigest c2Store2 0).detectionHashes = [] := by
  decide

/-- C3 counterexample: the preserve-session setting was never set by the
user (it is absent from storage), yet a successful create writes the
encoded raw session key to the store. -/
theorem session_key_written_without_explicit_opt_in :
    ((authClick (fun s => "#" ++ s) (fun s : String => s) (fun s => s)
      "secret1" "secret1"
      { masterHash := none, locked := none, preserveSession := none,
        sessionKey := none }).1).sessionKey ≠ none := by
  decide

/-- C3 (amended): the raw session key entry is left unchanged by create
and unlock exactly when the user has explicitly set session preservation
to false; with any other stored setting (absent or true) every successful
create or unlock writes the encoded raw key. -/
theorem session_key_persisted_unless_opt_out {Key : Type} (digest : String → String)
    (derive : String → Key) (exportB64 : Key → String)
    (pwInput confirmInput : String) (st : AuthStore) :
    (st.preserveSession = some false →
      ((authClick digest derive exportB64 pwInput confirmInput st).1).sessionKey
        = st.sessionKey) ∧
    (st.preserveSession ≠ some false →
      ((authClick digest derive exportB64 pwInput confirmInput st).2).isSome = true →
      ((authClick digest derive exportB64 pwInput confirmInput st).1).sessionKey
        = some (exportB64 (derive (jsTrim pwInput)))) := by
  unfold authClick
  constructor
  · intro hopt
    have hbne : (st.preserveSession != some false) = false := by
      simp [hopt]
    cases hm : st.masterHash
    all_goals simp only [hbne, Bool.false_eq_true, if_false]
    all_goals (repeat' split)
    all_goals simp
  · intro hopt
    have hbne : (st.preserveSession != some false) = true := by
      simpa using hopt
    cases hm : st.masterHash
    all_goals simp only [hbne, if_true]
    all_goals (repeat' split)
    all_goals simp

theorem session_key_persisted_unless_opt_out_witness :
    ((authClick (fun s => "#" ++ s) (fun s : String => s) (fun s => s)
      "secret1" "secret1"
      { masterHash := none, locked := none, preserveSession := some false,
        sessionKey := none }).1).sessionKey = none :=
  (session_key_persisted_unless_opt_out (fun s => "#" ++ s) (fun s : String => s)
    (fun s => s) "secret1" "secret1"
    { masterHash := none, locked := none, preserveSession := some false,
      sessionKey := none }).1 rfl

/-- C9 (code bug, concrete failing run): two input events on the same
field at 0 ms and 100 ms — each within 500 ms of its predecessor — leave
two pending detection timers, firing at 500 ms and 600 ms. Each keystroke
evaluates debounce(fn, 500)() on a fresh closure whose timeout variable is
empty, so the earlier timer is never cancelled and two checkForKnownPII
calls run, where the claim allows at most one. -/
theorem debounce_not_shared_across_events :
    (processInputEvents { nextId := 0, pending := [] } [0, 100]).pending
      = [(0, 500), (1, 600)] ∧
    (processInputEvents { nextId := 0, pending := [] } [0, 100]).pending.length = 2 :=
  ⟨rfl, rfl⟩

/-! ## Shared lemmas about hash detection while locked -/

theorem hashDetect_isSome_of_find (digest : String → String) (st : CSState)
    (value : String)
    (hfind : (st.detectionHashes.find?
      (fun e => (variantHashes digest value).contains e.hash)).isSome = true) :
    (hashDetect digest st value).isSome = true := by
  unfold hashDetect
  have hne : st.detectionHashes.isEmpty = false := by
    cases hdh : st.detectionHashes with
    | nil => rw [hdh] at hfind; simp [List.find?] at hfind
    | cons a l => simp [hdh]
  rw [hne]
  simp only [Bool.false_eq_true, if_false]
  obtain ⟨m, hm⟩ := Option.isSome_iff_exists.1 hfind
  rw [hm]
  simp

/-- C10: form-submit detection is entirely disabled while the vault is
locked — the submit handler checks no field value at all — even though a
paste event in the same locked state still runs the hash-based check and
matches a value whose hash is in the index. -/
theorem form_submit_disabled_while_locked (digest : String → String) (st : CSState)
    (inputs : List String) (w : String)
    (hlock : st.isUnlocked = false)
    (hw3 : 3 ≤ (jsTrim w).length)
    (hw : (st.detectionHashes.find?
      (fun e => (variantHashes digest (jsTrim w)).contains e.hash)).isSome = true) :
    handleFormSubmit digest st inputs = [] ∧
    handlePaste digest st w = some (checkForKnownPII digest st (jsTrim w)) ∧
    (checkForKnownPII digest st (jsTrim w)).isSome = true := by
  refine ⟨?_, ?_, ?_⟩
  · simp [handleFormSubmit, hlock]
  · simp [handlePaste, hw3]
  · rw [checkForKnownPII, hlock]
    simp only [Bool.false_and, Bool.false_eq_true, if_false]
    exact hashDetect_isSome_of_find digest st (jsTrim w) hw

def c10St : CSState :=
  { isUnlocked := false, knownEntries := [],
    detectionHashes := [{ hash := "#555", type := "phone", shortDisplay := "p" }] }

theorem form_submit_disabled_while_locked_witness :
    handleFormSubmit exDigest c10St ["555", "a@b.co"] = [] ∧
    handlePaste exDigest c10St "555" = some (checkForKnownPII exDigest c10St (jsTrim "555")) ∧
    (checkForKnownPII exDigest c10St (jsTrim "555")).isSome = true :=
  form_submit_disabled_while_locked exDigest c10St ["555", "a@b.co"] "555"
    (by decide) (by decide) (by decide)

/-- C7: a lock event clears the plaintext cache but not hash detection.
After the statusChanged-locked message, a value that previously matched
(via the knownEntries cache) and none of whose variant hashes occur in the
detection index no longer matches, while a value with a variant hash in
the index still matches. -/
theorem lock_clears_plaintext_cache (digest : String → String)
    (storedProfile : List ProfileRecord) (storedHashes : List DetectionHashRecord)
    (st : CSState) (v w : String)
    (_hvmatch : (checkForKnownPII digest st v).isSome = true)
    (hv : ∀ e ∈ st.detectionHashes, ((variantHashes digest v).contains e.hash) = false)
    (hw : (st.detectionHashes.find?
      (fun e => (variantHashes digest w).contains e.hash)).isSome = true) :
    checkForKnownPII digest
      (onMessage storedProfile storedHashes (CSMessage.statusChanged false) st) v = none ∧
    (checkForKnownPII digest
      (onMessage storedProfile storedHashes (CSMessage.statusChanged false) st) w).isSome
      = true := by
  have hst : onMessage storedProfile storedHashes (CSMessage.statusChanged false) st
      = { st with isUnlocked := false, knownEntries := [] } := rfl
  rw [hst]
  constructor
  · rw [checkForKnownPII]
    simp only [Bool.false_and, Bool.false_eq_true, if_false]
    rw [hashDetect]
    split
    case isTrue => rfl
    case isFalse =>
        have hnone : List.find?
            (fun e => (variantHashes digest v).contains e.hash) st.detectionHashes
            = none := by
          refine List.find?_eq_none.2 ?_
          intro e he
          rw [hv e he]
          simp
        simp only [hnone]
  · rw [checkForKnownPII]
    simp only [Bool.false_and, Bool.false_eq_true, if_false]
    exact hashDetect_isSome_of_find digest _ w hw

def c7St : CSState :=
  { isUnlocked := true,
    knownEntries := [{ type := "email", value := "a@b.co", shortDisplay := "m", addedAt := 0 }],
    detectionHashes := [{ hash := "#555", type := "phone", shortDisplay := "p" }] }

theorem lock_clears_plaintext_cache_witness :
    checkForKnownPII exDigest
      (onMessage [] [] (CSMessage.statusChanged false) c7St) "a@b.co" = none ∧
    (checkForKnownPII exDigest
      (onMessage [] [] (CSMessage.statusChanged false) c7St) "555").isSome = true :=
  lock_clears_plaintext_cache exDigest [] [] c7St "a@b.co" "555"
    (by decide) (by decide) (by decide)

/-! ## Shared lemmas about the notification cooldown and the log cap -/

theorem lookupTime_mapUpsert (m : List (String × Nat)) (k : String) (v : Nat) :
    lookupTime (mapUpsert m k v) k = some v := by
  unfold mapUpsert
  split
  case isTrue hany =>
      induction m with
      | nil => simp at hany
      | cons p ps ih =>
          by_cases hp : p.1 == k
          · have hpk : p.1 = k := by simpa using hp
            simp [lookupTime, List.find?, hp]
          · have hany2 : ps.any (fun q => q.1 == k) = true := by
              simp only [List.any_cons, hp, Bool.false_or] at hany
              exact hany
            have := ih hany2
            simpa [lookupTime, List.find?, hp] using this
  case isFalse hany =>
      unfold lookupTime
      rw [List.find?_append]
      have hnone : m.find? (fun p => p.1 == k) = none := by
        refine List.find?_eq_none.2 ?_
        intro p hp hcontra
        exact hany (List.any_eq_true.2 ⟨p, hp, hcontra⟩)
      rw [hnone]
      simp [List.find?]

theorem capLogs_append (l r : List UsageLogRecord) (h : r.length ≤ 1000) :
    ∃ m, capLogs (l ++ r) = m ++ r := by
  unfold capLogs
  split
  case isTrue h1 =>
      refine ⟨l.drop ((l ++ r).length - 1000), ?_⟩
      rw [List.length_append] at *
      rw [List.drop_append_of_le_length (by omega)]
  case isFalse h1 => exact ⟨l, rfl⟩

/-- C8: two detection matches with the same type and site key within the
5-second cooldown raise only the first notification, while both usage log
records are appended (the two records end the log list). -/
theorem cooldown_suppresses_notification_not_logs (st : DetectState) (found : Found)
    (site url1 url2 f1 f2 : String) (t1 t2 : Nat)
    (hfresh : lookupTime st.lastNotificationTime (found.type ++ "_" ++ site) = none)
    (ht1 : 0 < t1) (hwin : t2 - t1 < 5000) :
    (processMatch st found site url1 t1 f1).2 = true ∧
    (processMatch (processMatch st found site url1 t1 f1).1 found site url2 t2 f2).2
      = false ∧
    List.IsSuffix [mkUsageLog found site url1 t1 f1, mkUsageLog found site url2 t2 f2]
      ((processMatch (processMatch st found site url1 t1 f1).1 found site url2 t2 f2).1).logs := by
  have hshow1 : showNotification st.lastNotificationTime found.type site t1
      = (mapUpsert st.lastNotificationTime (found.type ++ "_" ++ site) t1, true) := by
    unfold showNotification
    rw [hfresh]
    simp
  have hst1 : (processMatch st found site url1 t1 f1).1.lastNotificationTime
      = mapUpsert st.lastNotificationTime (found.type ++ "_" ++ site) t1 := by
    show (showNotification st.lastNotificationTime found.type site t1).1
      = mapUpsert st.lastNotificationTime (found.type ++ "_" ++ site) t1
    rw [hshow1]
  have hlook2 : lookupTime
      ((processMatch st found site url1 t1 f1).1.lastNotificationTime)
      (found.type ++ "_" ++ site) = some t1 := by
    rw [hst1]
    exact lookupTime_mapUpsert _ _ _
  refine ⟨?_, ?_, ?_⟩
  · show (showNotification st.lastNotificationTime found.type site t1).2 = true
    rw [hshow1]
  · show (showNotification
      (processMatch st found site url1 t1 f1).1.lastNotificationTime
      found.type site t2).2 = false
    unfold showNotification
    rw [hlook2]
    have hsup : (t1 != 0 && decide (t2 - t1 < 5000)) = true := by
      simp only [Bool.and_eq_true, bne_iff_ne, ne_eq, decide_eq_true_eq]
      exact ⟨by omega, hwin⟩
    simp [hsup]
  · show List.IsSuffix _
      (logPIIUsage (processMatch st found site url1 t1 f1).1.logs found site url2 t2 f2)
    have hlogs1 : (processMatch st found site url1 t1 f1).1.logs
        = logPIIUsage st.logs found site url1 t1 f1 := rfl
    rw [hlogs1]
    unfold logPIIUsage
    obtain ⟨m1, hm1⟩ := capLogs_append st.logs [mkUsageLog found site url1 t1 f1] (by simp)
    rw [hm1]
    have hassoc : (m1 ++ [mkUsageLog found site url1 t1 f1])
        ++ [mkUsageLog found site url2 t2 f2]
        = m1 ++ [mkUsageLog found site url1 t1 f1, mkUsageLog found site url2 t2 f2] := by
      simp
    rw [hassoc]
    obtain ⟨m2, hm2⟩ := capLogs_append m1
      [mkUsageLog found site url1 t1 f1, mkUsageLog found site url2 t2 f2] (by simp)
    rw [hm2]
    exact ⟨m2, rfl⟩

theorem cooldown_suppresses_notification_not_logs_witness :
    (processMatch { logs := [], lastNotificationTime := [] }
      { type := "phone", value := "555", shortDisplay := "p" } "s" "u1" 10 "f1").2 = true ∧
    (processMatch (processMatch { logs := [], lastNotificationTime := [] }
      { type := "phone", value := "555", shortDisplay := "p" } "s" "u1" 10 "f1").1
      { type := "phone", value := "555", shortDisplay := "p" } "s" "u2" 20 "f2").2 = false ∧
    List.IsSuffix
      [mkUsageLog { type := "phone", value := "555", shortDisplay := "p" } "s" "u1" 10 "f1",
       mkUsageLog { type := "phone", value := "555", shortDisplay := "p" } "s" "u2" 20 "f2"]
      ((processMatch (processMatch { logs := [], lastNotificationTime := [] }
        { type := "phone", value := "555", shortDisplay := "p" } "s" "u1" 10 "f1").1
        { type := "phone", value := "555", shortDisplay := "p" } "s" "u2" 20 "f2").1).logs :=
  cooldown_suppresses_notification_not_logs
    { logs := [], lastNotificationTime := [] }
    { type := "phone", value := "555", shortDisplay := "p" } "s" "u1" "u2" "f1" "f2"
    10 20 (by decide) (by decide) (by decide)

/-! ## C5 and C6: encryption round trip and fail-closed decryption

The AEAD contract of Web Crypto AES-GCM appears as explicit hypotheses:
decryption with the encrypting key and IV recovers the plaintext;
decryption rejects (returns `none`, the model of a thrown
AuthenticationError) under a different key, a ciphertext outside the image
of encryption, or a foreign IV. The JSON serializer contract — parse is a
left inverse of stringify on the serialized object — is likewise a
hypothesis. -/

/-- C5: encryption round-trips. For every key, every serializable object
and every byte-valid IV, decryptJSON of encryptJSON with the same key
recovers the object, given the AEAD round-trip contract and the JSON
serializer contract at that object. -/
theorem decryptJSON_encryptJSON {Key α : Type} (A : AEAD Key) (stringify : α → String)
    (parse : String → Option α) (key : Key) (obj : α) (iv : List Nat)
    (hiv : ∀ b ∈ iv, b < 256)
    (henc : ∀ b ∈ A.enc key iv (textEncode (stringify obj)), b < 256)
    (hdec : A.dec key iv (A.enc key iv (textEncode (stringify obj)))
      = some (textEncode (stringify obj)))
    (hparse : parse (stringify obj) = some obj) :
    decryptJSON A parse (encryptJSON A stringify obj key iv) key = some obj := by
  unfold decryptJSON encryptJSON
  rw [b64ToBuf_bufToB64 iv hiv, b64ToBuf_bufToB64 _ henc]
  simp [hdec, textDecode_textEncode, hparse]

theorem decryptJSON_encryptJSON_witness :
    decryptJSON idAEAD some
      (encryptJSON idAEAD (fun s : String => s) "hi" 0 [1, 2, 250]) 0 = some "hi" :=
  decryptJSON_encryptJSON idAEAD (fun s : String => s) some 0 "hi" [1, 2, 250]
    (by decide) (by decide) rfl rfl

/-- C6: decryption fails closed. With the AEAD authentication contract as
hypotheses, decryptJSON of a payload encrypted under one key fails
(`none`) under a different key; it also fails on the same key when the
stored ciphertext is replaced by bytes outside the image of encryption,
or when the stored IV is replaced by a foreign IV for which the ciphertext
is not a valid encryption. No wrong object is ever returned. -/
theorem decryptJSON_wrong_key_or_corrupt_fails {Key α : Type} (A : AEAD Key)
    (stringify : α → String) (parse : String → Option α) (k1 k2 : Key) (obj : α)
    (iv : List Nat)
    (hiv : ∀ b ∈ iv, b < 256)
    (henc : ∀ b ∈ A.enc k1 iv (textEncode (stringify obj)), b < 256)
    (hauth : A.dec k2 iv (A.enc k1 iv (textEncode (stringify obj))) = none)
    (hlaw : ∀ iv0 ct, (∀ pt, ct ≠ A.enc k1 iv0 pt) → A.dec k1 iv0 ct = none) :
    decryptJSON A parse (encryptJSON A stringify obj k1 iv) k2 = none ∧
    (∀ ct : List Nat, (∀ b ∈ ct, b < 256) →
      (∀ pt, ct ≠ A.enc k1 iv pt) →
      decryptJSON A parse
        { iv := (encryptJSON A stringify obj k1 iv).iv, ct := bufToB64 ct } k1 = none) ∧
    (∀ iv2 : List Nat, (∀ b ∈ iv2, b < 256) →
      (∀ pt, A.enc k1 iv (textEncode (stringify obj)) ≠ A.enc k1 iv2 pt) →
      decryptJSON A parse
        { iv := bufToB64 iv2, ct := (encryptJSON A stringify obj k1 iv).ct } k1 = none) := by
  refine ⟨?_, ?_, ?_⟩
  · unfold decryptJSON encryptJSON
    rw [b64ToBuf_bufToB64 iv hiv, b64ToBuf_bufToB64 _ henc]
    simp [hauth]
  · intro ct hct hout
    unfold decryptJSON encryptJSON
    rw [b64ToBuf_bufToB64 iv hiv, b64ToBuf_bufToB64 ct hct]
    simp [hlaw iv ct hout]
  · intro iv2 hiv2 hout
    unfold decryptJSON encryptJSON
    rw [b64ToBuf_bufToB64 iv2 hiv2, b64ToBuf_bufToB64 _ henc]
    simp [hlaw iv2 (A.enc k1 iv (textEncode (stringify obj))) hout]

theorem decryptJSON_wrong_key_or_corrupt_fails_witness :
    decryptJSON tagAEAD some
      (encryptJSON tagAEAD (fun s : String => s) "hi" 0 [7]) 1 = none ∧
    decryptJSON tagAEAD some
      { iv := (encryptJSON tagAEAD (fun s : String => s) "hi" 0 [7]).iv,
        ct := bufToB64 [9, 9] } 0 = none ∧
    decryptJSON tagAEAD some
      { iv := bufToB64 [3, 4],
        ct := (encryptJSON tagAEAD (fun s : String => s) "hi" 0 [7]).ct } 0 = none := by
  have hlaw : ∀ iv0 ct, (∀ pt, ct ≠ tagAEAD.enc 0 iv0 pt) → tagAEAD.dec 0 iv0 ct = none := by
    intro iv0 ct hout
    match ct with
    | [] => rfl
    | [t] => rfl
    | t :: l :: rest =>
        show (if t == 0 % 256 && l == iv0.length % 256 then some rest else none) = none
        rw [if_neg]
        intro hcond
        simp only [Bool.and_eq_true, beq_iff_eq] at hcond
        exact hout rest (by simp [tagAEAD, hcond.1, hcond.2])
  have hmain := decryptJSON_wrong_key_or_corrupt_fails tagAEAD (fun s : String => s)
    some 0 1 "hi" [7] (by decide) (by decide) (by decide) hlaw
  refine ⟨hmain.1, hmain.2.1 [9, 9] (by decide) ?_, hmain.2.2 [3, 4] (by decide) ?_⟩
  · intro pt hpt
    simp [tagAEAD] at hpt
  · intro pt hpt
    have h2 : (tagAEAD.enc 0 [7] (textEncode "hi")).getD 1 0
        = (tagAEAD.enc 0 [3, 4] pt).getD 1 0 := by rw [hpt]
    simp [tagAEAD] at h2

end TraceGuard
